import Mathlib

/-!
Shallow embedding of the FutureInsight data viewer (`src/Data.py`):
ticker parsing, date-range validation, column flattening and resolution,
the ATH/ATL extrema block, and the per-symbol download/display loops.
Prices are modelled as rationals, calendar dates as integers.
-/

namespace FutureInsight

/-! ## Python string primitives used by the ticker-input line

`tickers = [t.strip().upper() for t in ticker_input.split(',') if t.strip()]`
-/

/-- Python's `str.strip` whitespace set: space, tab, newline, carriage
return, vertical tab, form feed. -/
def pyIsSpace (c : Char) : Bool :=
  c = ' ' || c = '\t' || c = '\n' || c = '\r' || c = '\x0b' || c = '\x0c'

/-- Python `str.strip` on a character list: drop whitespace from both ends. -/
def pyStrip (l : List Char) : List Char :=
  ((l.dropWhile pyIsSpace).reverse.dropWhile pyIsSpace).reverse

/-- Python `str.upper` on one character (ASCII letters a-z map to A-Z). -/
def pyToUpper (c : Char) : Char :=
  if 97 ≤ c.toNat ∧ c.toNat ≤ 122 then Char.ofNat (c.toNat - 32) else c

/-- Python `s.split(',')`: split on every comma, keeping empty tokens,
so that `"".split(',') = [""]`. -/
def splitOnComma : List Char → List (List Char)
  | [] => [[]]
  | c :: rest =>
    match splitOnComma rest with
    | [] => [[]]
    | t :: ts => if c = ',' then [] :: t :: ts else (c :: t) :: ts

/-- The ticker list comprehension of `Data.py`:
`[t.strip().upper() for t in ticker_input.split(',') if t.strip()]`. -/
def parseTickers (s : String) : List String :=
  (splitOnComma s.data).filterMap fun t =>
    let t' := pyStrip t
    if t' = [] then none else some (String.mk (t'.map pyToUpper))

/-! ## Date-range validation

`if pd.to_datetime(start_date) >= pd.to_datetime(end_date): st.error(...); st.stop()`
-/

inductive RangeResult where
  | ok
  | invertedRangeError
deriving DecidableEq, Repr

/-- The range check of `Data.py`: the request is rejected when
`start_date >= end_date`. Dates are modelled as integers (day numbers). -/
def validateRange (start_date end_date : Int) : RangeResult :=
  if start_date ≥ end_date then .invertedRangeError else .ok

/-! ## Column labels and `flatten_columns` -/

/-- A pandas column label: either a flat (scalar string) label or a
MultiIndex tuple whose parts are strings or `None` (modelled as
`Option String`, `none` being Python's `None`). -/
inductive PyLabel where
  | str (s : String)
  | tup (parts : List (Option String))
deriving DecidableEq, Repr

/-- One part of a tuple label survives `if c not in ("", None)` exactly
when it is a string different from `""`; it is then rendered by `str`. -/
def keptPart : Option String → Option String
  | none => none
  | some s => if s = "" then none else some s

/-- `flatten_columns` applied to a single label: a tuple label keeps the
parts that are neither `""` nor `None` and joins them with `"_"`
(an all-dropped tuple gives `""`); any other label is `str(col)`. -/
def flattenLabel : PyLabel → String
  | .str s => s
  | .tup parts =>
    let kept := parts.filterMap keptPart
    if kept = [] then "" else String.intercalate "_" kept

/-- `flatten_columns(columns)` from `Data.py`: flatten every label in order. -/
def flatten_columns (cols : List PyLabel) : List String :=
  cols.map flattenLabel

/-- Python `str()` of one tuple part, as it appears inside `str` of a tuple. -/
def pyReprPart : Option String → String
  | none => "None"
  | some s => "'" ++ s ++ "'"

/-- Python `str(col)` of a label (only the flat case matters downstream;
the tuple rendering mirrors Python's tuple `repr`). -/
def pyStr : PyLabel → String
  | .str s => s
  | .tup [] => "()"
  | .tup [p] => "(" ++ pyReprPart p ++ ",)"
  | .tup ps => "(" ++ String.intercalate ", " (ps.map pyReprPart) ++ ")"

/-! ## Raw and normalized tables -/

/-- A fetched per-symbol table, as returned by the market-data provider:
`multi` says whether its columns form a pandas MultiIndex, `indexName` is
the name of the date index (`none` = unnamed), `dates` its index values,
`cols` the column labels, and `vals` the numeric cells of a column looked
up by its flattened name. -/
structure RawDF where
  multi : Bool
  indexName : Option String
  cols : List PyLabel
  dates : List Int
  vals : String → List ℚ

instance : Inhabited RawDF := ⟨⟨false, none, [], [], fun _ => []⟩⟩

/-- pandas `df.empty`: the table has no rows. -/
def RawDF.isEmpty (df : RawDF) : Bool := df.dates.isEmpty

/-- pandas `df.reset_index()` at the column-label level: the date index
becomes the first column, labelled by the index name (or `index` when the
index is unnamed); under a MultiIndex it becomes a `(name, "")` tuple. -/
def resetColumns (df : RawDF) : List PyLabel :=
  let idx := df.indexName.getD "index"
  if df.multi then .tup [some idx, some ""] :: df.cols else .str idx :: df.cols

/-- The column-flattening branch of `prepare_df_for_plot`: MultiIndex
columns go through `flatten_columns`, flat columns through `str`. -/
def flattenStep (multi : Bool) (cols : List PyLabel) : List String :=
  if multi then flatten_columns cols else cols.map pyStr

/-- `if 'Date' not in df_reset.columns and 'index' in df_reset.columns:
df_reset = df_reset.rename(columns={'index': 'Date'})`. -/
def fixDate (cols : List String) : List String :=
  if "Date" ∉ cols ∧ "index" ∈ cols then
    cols.map fun c => if c = "index" then "Date" else c
  else cols

/-- The candidate list for the close column, in source order. -/
def closeCandidates (ticker : String) : List String :=
  ["Close_" ++ ticker, "Close", "Adj Close_" ++ ticker, "Adj Close"]

/-- `y_col = next((c for c in candidates if c in df_reset.columns), None)`. -/
def resolveYCol (cols : List String) (ticker : String) : Option String :=
  (closeCandidates ticker).find? fun c => cols.contains c

/-- A table after `prepare_df_for_plot`: flat string columns, the `Date`
column's values, and numeric columns by name. -/
structure NormDF where
  columns : List String
  dateVals : List Int
  numVals : String → List ℚ

/-- `prepare_df_for_plot(df, ticker)`: reset the index, flatten the
columns, restore `Date`, and resolve the close reference. -/
def prepare_df_for_plot (df : RawDF) (ticker : String) : NormDF × Option String :=
  let nd : NormDF :=
    { columns := fixDate (flattenStep df.multi (resetColumns df))
      dateVals := df.dates
      numVals := df.vals }
  (nd, resolveYCol nd.columns ticker)

/-- `pick_col(df, base, ticker)`: first of `base_ticker`, `base` present. -/
def pick_col (cols : List String) (base ticker : String) : Option String :=
  ([base ++ "_" ++ ticker, base]).find? fun c => cols.contains c

/-! ## ATH / ATL extrema -/

structure Extrema where
  highValue : ℚ
  highDate : Int
  lowValue : ℚ
  lowDate : Int
deriving DecidableEq, Repr

/-- The ATH/ATL block: `ath = df[high].max()`, `ath_date =
df.loc[df[high].idxmax(), "Date"]`, and symmetrically for the low; pandas
`idxmax`/`idxmin` return the first row achieving the extremum, and after
`reset_index` row labels coincide with positions. `none` models the cases
(empty series, date lookup failure) where pandas would fail, which the
driver never reaches. -/
def computeExtrema (dates : List Int) (highs lows : List ℚ) : Option Extrema :=
  match highs.max?, lows.min? with
  | some hv, some lv =>
    match dates[highs.indexOf hv]?, dates[lows.indexOf lv]? with
    | some hd, some ld => some ⟨hv, hd, lv, ld⟩
    | _, _ => none
  | _, _ => none

/-! ## Per-symbol display pipeline -/

/-- One user-visible step produced while displaying a symbol. -/
inductive DisplayStep where
  | table (cols : List String)
  | warnNoDate (t : String)
  | warnIncompleteOhlc (t : String)
  | metrics (e : Option Extrema)
  | chart (t : String)
  | csv (t : String)
deriving DecidableEq, Repr

/-- The body of the display loop for one ticker with its fetched table:
show the table, then skip (with a warning) when `Date` is missing or the
OHLC columns are incomplete, otherwise show extrema metrics, the
candlestick chart, and prepare the CSV export. -/
def displaySymbol (ticker : String) (df : RawDF) : List DisplayStep :=
  let nd := (prepare_df_for_plot df ticker).1
  let openCol := pick_col nd.columns "Open" ticker
  let highCol := pick_col nd.columns "High" ticker
  let lowCol := pick_col nd.columns "Low" ticker
  let closeCol := pick_col nd.columns "Close" ticker
  .table nd.columns ::
    (if "Date" ∉ nd.columns then [.warnNoDate ticker]
     else if openCol.isNone || highCol.isNone || lowCol.isNone || closeCol.isNone then
       [.warnIncompleteOhlc ticker]
     else
       [.metrics (computeExtrema nd.dateVals
          (nd.numVals (highCol.getD "")) (nd.numVals (lowCol.getD ""))),
        .chart ticker, .csv ticker])

/-! ## Download loop and batch orchestration -/

/-- Outcome of `yf.download` for one ticker: a table, an absent/`None`
result, or a raised exception. -/
inductive FetchResult where
  | ok (df : RawDF)
  | noData
  | err (msg : String)

/-- The table stored into `data[ticker]`, when the fetch succeeded with a
non-empty frame. -/
def loadedDf : FetchResult → Option RawDF
  | .ok df => if df.isEmpty then none else some df
  | _ => none

/-- Python dict assignment `d[k] = v`: overwrite in place, else append. -/
def dictInsert (k : String) (v : RawDF) (d : List (String × RawDF)) :
    List (String × RawDF) :=
  if d.any (fun p => p.1 = k) then
    d.map fun p => if p.1 = k then (k, v) else p
  else d ++ [(k, v)]

/-- The download loop's accumulation into the `data` dict. -/
def buildDataAux (f : String → FetchResult) (acc : List (String × RawDF)) :
    List String → List (String × RawDF)
  | [] => acc
  | t :: ts =>
    buildDataAux f
      (match loadedDf (f t) with
       | some df => dictInsert t df acc
       | none => acc) ts

/-- `data` after the download loop over `tickers`. -/
def buildData (f : String → FetchResult) (ts : List String) :
    List (String × RawDF) :=
  buildDataAux f [] ts

/-- A per-symbol record emitted by the download loop. -/
inductive BatchEvent where
  | loaded (t : String)
  | warnNoData (t : String)
  | errorFetch (t : String) (msg : String)
deriving DecidableEq, Repr

/-- The warnings/errors the download loop surfaces, one per ticker
occurrence, in order. -/
def batchEvents (f : String → FetchResult) (ts : List String) :
    List BatchEvent :=
  ts.map fun t =>
    match f t with
    | .ok df => if df.isEmpty then .warnNoData t else .loaded t
    | .noData => .warnNoData t
    | .err m => .errorFetch t m

/-- The display loop: one block of display steps per entry of `data`. -/
def runBatch (f : String → FetchResult) (ts : List String) :
    List (String × List DisplayStep) :=
  (buildData f ts).map fun p => (p.1, displaySymbol p.1 p.2)

/-- The whole request: parse tickers, validate the range (halting the
request before any fetch when it is inverted), then download and display. -/
def app (tickerInput : String) (start_date end_date : Int)
    (f : String → FetchResult) :
    Option (List BatchEvent × List (String × List DisplayStep)) :=
  if validateRange start_date end_date = .invertedRangeError then none
  else
    some (batchEvents f (parseTickers tickerInput),
          runBatch f (parseTickers tickerInput))

/-! ## Helper lemmas -/

instance : Std.Antisymm (fun a b : ℚ => a ≤ b) :=
  ⟨fun h h' => le_antisymm h h'⟩

theorem head?_dropWhile_not (p : Char → Bool) (l : List Char) (c : Char)
    (h : (l.dropWhile p).head? = some c) : p c = false := by
  induction l with
  | nil => simp [List.dropWhile] at h
  | cons a t ih =>
    rw [List.dropWhile_cons] at h
    by_cases hpa : p a
    · rw [if_pos hpa] at h
      exact ih h
    · rw [if_neg hpa] at h
      simp only [List.head?_cons, Option.some.injEq] at h
      subst h
      simpa using hpa

theorem getLast?_dropWhile (p : Char → Bool) (l : List Char)
    (h : l.dropWhile p ≠ []) : (l.dropWhile p).getLast? = l.getLast? := by
  induction l with
  | nil => simp [List.dropWhile] at h
  | cons a t ih =>
    rw [List.dropWhile_cons]
    rw [List.dropWhile_cons] at h
    split at h
    · rw [if_pos (by assumption)]
      rcases t with _ | ⟨b, t'⟩
      · simp [List.dropWhile] at h
      · rw [ih h, List.getLast?_cons_cons]
    · rw [if_neg (by assumption)]

theorem pyStrip_head?_not_space (l : List Char) (c : Char)
    (h : (pyStrip l).head? = some c) : pyIsSpace c = false := by
  unfold pyStrip at h
  set m := l.dropWhile pyIsSpace with hm
  set r := m.reverse.dropWhile pyIsSpace with hr
  rw [List.head?_reverse] at h
  have hne : r ≠ [] := by
    intro h0
    rw [h0] at h
    simp at h
  rw [getLast?_dropWhile pyIsSpace m.reverse hne, List.getLast?_reverse] at h
  exact head?_dropWhile_not pyIsSpace l c h

theorem pyStrip_getLast?_not_space (l : List Char) (c : Char)
    (h : (pyStrip l).getLast? = some c) : pyIsSpace c = false := by
  unfold pyStrip at h
  rw [List.getLast?_reverse] at h
  exact head?_dropWhile_not pyIsSpace _ c h

theorem char_toNat_ofNat (n : ℕ) (h : n.isValidChar) :
    (Char.ofNat n).toNat = n := by
  rw [Char.ofNat, dif_pos h]
  rfl

theorem pyIsSpace_false_of_big (c : Char) (h : 33 ≤ c.toNat) :
    pyIsSpace c = false := by
  simp only [pyIsSpace, Bool.or_eq_false_iff, decide_eq_false_iff_not]
  refine ⟨⟨⟨⟨⟨?_, ?_⟩, ?_⟩, ?_⟩, ?_⟩, ?_⟩ <;>
    · intro he
      rw [he] at h
      exact absurd h (by decide)

theorem pyToUpper_not_lower (c : Char) :
    ¬(97 ≤ (pyToUpper c).toNat ∧ (pyToUpper c).toNat ≤ 122) := by
  unfold pyToUpper
  by_cases h : 97 ≤ c.toNat ∧ c.toNat ≤ 122
  · rw [if_pos h]
    rw [char_toNat_ofNat (c.toNat - 32) (Or.inl (by omega))]
    omega
  · rw [if_neg h]
    exact h

theorem pyIsSpace_pyToUpper (c : Char) (h : pyIsSpace c = false) :
    pyIsSpace (pyToUpper c) = false := by
  unfold pyToUpper
  by_cases hc : 97 ≤ c.toNat ∧ c.toNat ≤ 122
  · rw [if_pos hc]
    apply pyIsSpace_false_of_big
    rw [char_toNat_ofNat (c.toNat - 32) (Or.inl (by omega))]
    omega
  · rwa [if_neg hc]

theorem mem_parseTickers (s : String) (sym : String)
    (h : sym ∈ parseTickers s) :
    ∃ t ∈ splitOnComma s.data, pyStrip t ≠ [] ∧
      sym = String.mk ((pyStrip t).map pyToUpper) := by
  unfold parseTickers at h
  rw [List.mem_filterMap] at h
  obtain ⟨t, ht, hf⟩ := h
  refine ⟨t, ht, ?_⟩
  by_cases he : pyStrip t = []
  · simp [he] at hf
  · rw [if_neg he] at hf
    exact ⟨he, (Option.some.injEq _ _ ▸ hf).symm⟩

theorem getElem?_lt_indexOf_ne (l : List ℚ) (a : ℚ) (j : ℕ)
    (hj : j < l.indexOf a) (x : ℚ) (hx : l[j]? = some x) : x ≠ a := by
  induction l generalizing j with
  | nil => simp at hx
  | cons b t ih =>
    rw [List.indexOf_cons] at hj
    by_cases hb : b = a
    · simp [hb] at hj
    · have hba : (b == a) = false := beq_false_of_ne hb
      rw [hba] at hj
      simp only [cond_false] at hj
      rcases j with _ | j'
      · simp only [List.getElem?_cons_zero, Option.some.injEq] at hx
        exact hx ▸ hb
      · rw [List.getElem?_cons_succ] at hx
        exact ih j' (by omega) hx

theorem getElem?_indexOf_self (l : List ℚ) (a : ℚ) (h : a ∈ l) :
    l[l.indexOf a]? = some a := by
  rw [List.getElem?_eq_getElem (List.indexOf_lt_length.2 h)]
  rw [List.getElem_indexOf]

theorem mem_of_getElem?_eq_some (l : List ℚ) (j : ℕ) (x : ℚ)
    (h : l[j]? = some x) : x ∈ l := by
  induction l generalizing j with
  | nil => simp at h
  | cons b t ih =>
    rcases j with _ | j'
    · simp only [List.getElem?_cons_zero, Option.some.injEq] at h
      exact h ▸ List.mem_cons_self b t
    · rw [List.getElem?_cons_succ] at h
      exact List.mem_cons_of_mem b (ih j' h)

/-! Helper lemmas about `dictInsert`, `lookup` and the download loop. -/

theorem lookup_overwriteMap_self (k : String) (v : RawDF) :
    ∀ d : List (String × RawDF),
      (d.map fun p => if p.1 = k then (k, v) else p).lookup k =
        (d.lookup k).map fun _ => v
  | [] => rfl
  | q :: d' => by
    by_cases hq : q.1 = k
    · simp only [List.map_cons, if_pos hq]
      rw [List.lookup_cons, List.lookup_cons]
      have h1 : (k == k) = true := beq_self_eq_true k
      have h2 : (k == q.1) = true := (hq ▸ beq_self_eq_true k : (k == q.1) = true)
      rw [h1, h2]
      rfl
    · simp only [List.map_cons, if_neg hq]
      rw [List.lookup_cons, List.lookup_cons]
      cases hkq : (k == q.1) with
      | true => exact absurd (eq_of_beq hkq).symm hq
      | false => exact lookup_overwriteMap_self k v d'

theorem lookup_overwriteMap_ne (k k' : String) (v : RawDF) (h : k' ≠ k) :
    ∀ d : List (String × RawDF),
      (d.map fun p => if p.1 = k then (k, v) else p).lookup k' = d.lookup k'
  | [] => rfl
  | q :: d' => by
    by_cases hq : q.1 = k
    · simp only [List.map_cons, if_pos hq]
      rw [List.lookup_cons, List.lookup_cons]
      have h1 : (k' == k) = false := beq_false_of_ne h
      have h2 : (k' == q.1) = false := beq_false_of_ne (fun he => h (he.trans hq))
      rw [h1, h2]
      exact lookup_overwriteMap_ne k k' v h d'
    · simp only [List.map_cons, if_neg hq]
      rw [List.lookup_cons, List.lookup_cons]
      cases hkq : (k' == q.1) with
      | true => rfl
      | false => exact lookup_overwriteMap_ne k k' v h d'

theorem lookup_append_single_self (k : String) (v : RawDF) :
    ∀ d : List (String × RawDF), (∀ p ∈ d, p.1 ≠ k) →
      (d ++ [(k, v)]).lookup k = some v
  | [], _ => by
    rw [List.nil_append, List.lookup_cons, beq_self_eq_true k]
  | q :: d', h => by
    rw [List.cons_append, List.lookup_cons]
    have hq : (k == q.1) = false :=
      beq_false_of_ne fun he => h q (List.mem_cons_self q d') he.symm
    rw [hq]
    exact lookup_append_single_self k v d'
      fun p hp => h p (List.mem_cons_of_mem q hp)

theorem lookup_append_single_ne (k k' : String) (v : RawDF) (h : k' ≠ k) :
    ∀ d : List (String × RawDF), (d ++ [(k, v)]).lookup k' = d.lookup k'
  | [] => by
    rw [List.nil_append, List.lookup_cons, beq_false_of_ne h]
  | q :: d' => by
    rw [List.cons_append, List.lookup_cons, List.lookup_cons]
    cases hkq : (k' == q.1) with
    | true => rfl
    | false => exact lookup_append_single_ne k k' v h d'

theorem lookup_dictInsert_self (k : String) (v : RawDF)
    (d : List (String × RawDF)) : (dictInsert k v d).lookup k = some v := by
  unfold dictInsert
  by_cases hd : (d.any fun p => p.1 = k) = true
  · rw [if_pos hd]
    rw [List.any_eq_true] at hd
    obtain ⟨p, hp, hpk⟩ := hd
    rw [lookup_overwriteMap_self]
    have hpk' : p.1 = k := by simpa using hpk
    induction d with
    | nil => exact absurd hp (List.not_mem_nil p)
    | cons q d' ih =>
      rw [List.lookup_cons]
      cases hkq : (k == q.1) with
      | true => rfl
      | false =>
        rcases List.mem_cons.1 hp with h1 | h1
        · exact absurd (h1 ▸ hpk' ▸ beq_self_eq_true k : (k == q.1) = true)
            (by rw [hkq]; exact Bool.false_ne_true)
        · exact ih h1
  · rw [if_neg hd]
    rw [Bool.not_eq_true, List.any_eq_false] at hd
    exact lookup_append_single_self k v d fun p hp => by simpa using hd p hp

theorem lookup_dictInsert_ne (k k' : String) (v : RawDF)
    (d : List (String × RawDF)) (h : k' ≠ k) :
    (dictInsert k v d).lookup k' = d.lookup k' := by
  unfold dictInsert
  by_cases hd : (d.any fun p => p.1 = k) = true
  · rw [if_pos hd]
    exact lookup_overwriteMap_ne k k' v h d
  · rw [if_neg hd]
    exact lookup_append_single_ne k k' v h d

/-- The central lemma about the download loop: the `data` entry of a key
is decided solely by that key's own fetch result. -/
theorem lookup_buildDataAux (f : String → FetchResult) (ts : List String)
    (acc : List (String × RawDF)) (k : String) :
    (buildDataAux f acc ts).lookup k =
      match loadedDf (f k) with
      | some df => if k ∈ ts then some df else acc.lookup k
      | none => acc.lookup k := by
  induction ts generalizing acc with
  | nil =>
    cases loadedDf (f k) with
    | none => rfl
    | some df => simp [buildDataAux]
  | cons t ts' ih =>
    show (buildDataAux f _ ts').lookup k = _
    rw [ih]
    by_cases hkt : k = t
    · subst hkt
      cases hfk : loadedDf (f k) with
      | none => rfl
      | some df =>
        dsimp only
        rw [if_pos (List.mem_cons_self k ts')]
        by_cases hm : k ∈ ts'
        · rw [if_pos hm]
        · rw [if_neg hm]
          exact lookup_dictInsert_self k df acc
    · have hmem : (k ∈ t :: ts') ↔ (k ∈ ts') := by simp [hkt]
      cases hft : loadedDf (f t) with
      | none =>
        cases hfk : loadedDf (f k) with
        | none => rfl
        | some df =>
          dsimp only
          rw [if_congr hmem rfl rfl]
      | some df' =>
        cases hfk : loadedDf (f k) with
        | none => exact lookup_dictInsert_ne t k df' acc hkt
        | some df =>
          dsimp only
          rw [if_congr hmem rfl rfl]
          by_cases hm : k ∈ ts'
          · rw [if_pos hm, if_pos hm]
          · rw [if_neg hm, if_neg hm]
            exact lookup_dictInsert_ne t k df' acc hkt

theorem lookup_buildData (f : String → FetchResult) (ts : List String)
    (k : String) :
    (buildData f ts).lookup k =
      match loadedDf (f k) with
      | some df => if k ∈ ts then some df else none
      | none => none := by
  unfold buildData
  rw [lookup_buildDataAux]
  cases loadedDf (f k) <;> simp [List.lookup]

theorem map_fst_overwriteMap (k : String) (v : RawDF) :
    ∀ d : List (String × RawDF),
      ((d.map fun p => if p.1 = k then (k, v) else p).map Prod.fst) =
        d.map Prod.fst
  | [] => rfl
  | q :: d' => by
    simp only [List.map_cons]
    rw [map_fst_overwriteMap k v d']
    by_cases hq : q.1 = k
    · rw [if_pos hq, hq]
    · rw [if_neg hq]

theorem nodup_keys_dictInsert (k : String) (v : RawDF)
    (d : List (String × RawDF)) (h : (d.map Prod.fst).Nodup) :
    ((dictInsert k v d).map Prod.fst).Nodup := by
  unfold dictInsert
  by_cases hd : (d.any fun p => p.1 = k) = true
  · rw [if_pos hd, map_fst_overwriteMap]
    exact h
  · rw [if_neg hd, List.map_append]
    refine List.Nodup.append h (List.nodup_singleton k) ?_
    intro a ha hak
    simp only [List.map_cons, List.map_nil, List.mem_singleton] at hak
    subst hak
    rw [Bool.not_eq_true, List.any_eq_false] at hd
    rw [List.mem_map] at ha
    obtain ⟨p, hp, hpk⟩ := ha
    have hfalse := hd p hp
    rw [hpk] at hfalse
    simp at hfalse

theorem nodup_keys_buildDataAux (f : String → FetchResult)
    (ts : List String) :
    ∀ acc : List (String × RawDF), (acc.map Prod.fst).Nodup →
      ((buildDataAux f acc ts).map Prod.fst).Nodup := by
  induction ts with
  | nil => exact fun acc h => h
  | cons t ts' ih =>
    intro acc h
    show ((buildDataAux f _ ts').map Prod.fst).Nodup
    cases loadedDf (f t) with
    | none => exact ih acc h
    | some df => exact ih _ (nodup_keys_dictInsert t df acc h)

theorem mem_keys_iff_lookup (k : String) :
    ∀ d : List (String × RawDF), k ∈ d.map Prod.fst ↔ d.lookup k ≠ none
  | [] => by simp
  | q :: d' => by
    rw [List.map_cons, List.mem_cons, List.lookup_cons]
    cases hkq : (k == q.1) with
    | true => simp [eq_of_beq hkq]
    | false =>
      have : ¬(k = q.1) := fun he => by
        rw [he] at hkq
        exact absurd (beq_self_eq_true q.1) (by rw [hkq]; exact Bool.false_ne_true)
      simp only [this, false_or]
      exact mem_keys_iff_lookup k d'

theorem lookup_some_mem (k : String) (v : RawDF) :
    ∀ d : List (String × RawDF), d.lookup k = some v → (k, v) ∈ d
  | [] => by simp
  | q :: d' => by
    rw [List.lookup_cons]
    cases hkq : (k == q.1) with
    | true =>
      intro h
      rw [Option.some.injEq] at h
      rw [List.mem_cons]
      exact Or.inl (Prod.ext_iff.2 ⟨eq_of_beq hkq, h.symm⟩)
    | false =>
      intro h
      exact List.mem_cons_of_mem q (lookup_some_mem k v d' h)

/-! ## The claims -/

/-- The close-resolution priority chain, written as the specification
words it: probe `Close_<symbol>`, `Close`, `Adj Close_<symbol>`,
`Adj Close` in strict priority order; the first present column wins, and
when none is present the resolution is absent. -/
def specCloseResolution (cols : List String) (s : String) : Option String :=
  if ("Close_" ++ s) ∈ cols then some ("Close_" ++ s)
  else if "Close" ∈ cols then some "Close"
  else if ("Adj Close_" ++ s) ∈ cols then some ("Adj Close_" ++ s)
  else if "Adj Close" ∈ cols then some "Adj Close"
  else none

/-- C1: for every normalized column set and symbol `s`, the close column
is resolved by probing `Close_s`, `Close`, `Adj Close_s`, `Adj Close` in
strict priority order, the first present column winning and the result
being absent when none is present; in particular with both `Close` and
`Close_BTC-USD` present, symbol `BTC-USD` resolves to `Close_BTC-USD`. -/
theorem claim_C1 :
    (∀ (cols : List String) (s : String),
       resolveYCol cols s = specCloseResolution cols s) ∧
    resolveYCol ["Close", "Close_BTC-USD"] "BTC-USD" = some "Close_BTC-USD" ∧
    resolveYCol ["Date", "Open"] "BTC-USD" = none := by
  refine ⟨?_, by decide, by decide⟩
  intro cols s
  unfold resolveYCol closeCandidates specCloseResolution
  by_cases h1 : ("Close_" ++ s) ∈ cols
  · rw [if_pos h1]
    simp [List.find?_cons, h1]
  · rw [if_neg h1]
    by_cases h2 : "Close" ∈ cols
    · rw [if_pos h2]
      simp [List.find?_cons, h1, h2]
    · rw [if_neg h2]
      by_cases h3 : ("Adj Close_" ++ s) ∈ cols
      · rw [if_pos h3]
        simp [List.find?_cons, h1, h2, h3]
      · rw [if_neg h3]
        by_cases h4 : "Adj Close" ∈ cols
        · rw [if_pos h4]
          simp [List.find?_cons, h1, h2, h3, h4]
        · rw [if_neg h4]
          simp [List.find?_cons, h1, h2, h3, h4]

/-- C2: flattening a tuple label joins the parts that are neither the
empty string nor `None` with single underscores; a tuple whose parts are
all empty or `None` flattens to the empty string; a non-tuple label is
kept as its own string; `("Close", "BTC-USD")` flattens to
`"Close_BTC-USD"` and `("", "")` to `""`. -/
theorem claim_C2 :
    (∀ parts : List (Option String),
       flattenLabel (.tup parts) =
         String.intercalate "_" (parts.filterMap keptPart)) ∧
    (∀ parts : List (Option String),
       (∀ p ∈ parts, p = none ∨ p = some "") →
         flattenLabel (.tup parts) = "") ∧
    (∀ s : String, flattenLabel (.str s) = s) ∧
    flattenLabel (.tup [some "Close", some "BTC-USD"]) = "Close_BTC-USD" ∧
    flattenLabel (.tup [some "", some ""]) = "" := by
  have hmain : ∀ parts : List (Option String),
      flattenLabel (.tup parts) =
        String.intercalate "_" (parts.filterMap keptPart) := by
    intro parts
    show (if parts.filterMap keptPart = [] then "" else _) = _
    by_cases h : parts.filterMap keptPart = []
    · rw [if_pos h, h]
      rfl
    · rw [if_neg h]
  refine ⟨hmain, ?_, fun s => rfl, by decide, by decide⟩
  intro parts hall
  rw [hmain]
  have : parts.filterMap keptPart = [] := by
    rw [List.filterMap_eq_nil_iff]
    intro p hp
    rcases hall p hp with h | h <;> simp [h, keptPart]
  rw [this]
  rfl

/-- Witness for C2 at a concrete all-empty tuple label. -/
theorem claim_C2_witness : flattenLabel (.tup [some "", none]) = "" :=
  claim_C2.2.1 [some "", none] (by decide)

/-- C7: validation rejects a range exactly when `start >= end` — so
`validate(d, d)` and `validate(d+1, d)` fail with the inverted-range
error while `validate(d, d+1)` succeeds — and a rejected range halts the
whole request before any fetch (the app produces no output at all). -/
theorem claim_C7 :
    (∀ s e : Int, validateRange s e = .invertedRangeError ↔ s ≥ e) ∧
    (∀ d : Int, validateRange d d = .invertedRangeError) ∧
    (∀ d : Int, validateRange (d + 1) d = .invertedRangeError) ∧
    (∀ d : Int, validateRange d (d + 1) = .ok) ∧
    (∀ (input : String) (s e : Int) (f : String → FetchResult),
       app input s e f = none ↔ s ≥ e) := by
  have hval : ∀ s e : Int, validateRange s e = .invertedRangeError ↔ s ≥ e := by
    intro s e
    unfold validateRange
    by_cases h : s ≥ e
    · simp [h]
    · simp [h]
  refine ⟨hval, fun d => (hval d d).2 le_rfl,
    fun d => (hval (d + 1) d).2 (by omega), ?_, ?_⟩
  · intro d
    unfold validateRange
    rw [if_neg (by omega)]
  · intro input s e f
    unfold app
    by_cases h : s ≥ e
    · rw [if_pos ((hval s e).2 h)]
      simp [h]
    · rw [if_neg (fun hc => h ((hval s e).1 hc))]
      simp [h]

/-- C9: the label-flattening step of `prepare_df_for_plot` leaves a table
whose labels are already flat strings unchanged, and applying the step
twice equals applying it once; the same holds for `flatten_columns`
itself on flat labels. -/
theorem claim_C9 :
    (∀ ss : List String, flattenStep false (ss.map .str) = ss) ∧
    (∀ ss : List String,
       flattenStep false ((flattenStep false (ss.map .str)).map .str) =
         flattenStep false (ss.map .str)) ∧
    (∀ ss : List String, flatten_columns (ss.map .str) = ss) ∧
    flattenStep false [.str "Close", .str "Open"] = ["Close", "Open"] := by
  have h1 : ∀ ss : List String, flattenStep false (ss.map .str) = ss := by
    intro ss
    simp only [flattenStep, Bool.false_eq_true, if_false, List.map_map]
    rw [show (pyStr ∘ PyLabel.str) = id from funext fun s => rfl, List.map_id]
  have h3 : ∀ ss : List String, flatten_columns (ss.map .str) = ss := by
    intro ss
    simp only [flatten_columns, List.map_map]
    rw [show (flattenLabel ∘ PyLabel.str) = id from funext fun s => rfl,
      List.map_id]
  exact ⟨h1, fun ss => by rw [h1, h1], h3, by decide⟩

/-- C10: flattening a sequence of column labels yields exactly one flat
key per input label, in the same positions — same length, no drops,
additions or reorderings. -/
theorem claim_C10 :
    ∀ cols : List PyLabel,
      (flatten_columns cols).length = cols.length ∧
      ∀ i : ℕ, (flatten_columns cols)[i]? = cols[i]?.map flattenLabel := by
  intro cols
  exact ⟨List.length_map cols flattenLabel,
    fun i => List.getElem?_map flattenLabel cols i⟩

/-- C8: parsing splits the input on commas, trims whitespace, discards
tokens that are empty after trimming and upper-cases the rest, so no
returned symbol is empty, starts or ends with whitespace, or contains an
ASCII lower-case letter; `"btc-usd, , BNB-usd"` parses to
`["BTC-USD", "BNB-USD"]`. -/
theorem claim_C8 :
    (∀ s : String, ∀ sym ∈ parseTickers s,
       sym ≠ "" ∧
       (∀ c : Char, sym.data.head? = some c → pyIsSpace c = false) ∧
       (∀ c : Char, sym.data.getLast? = some c → pyIsSpace c = false) ∧
       (∀ c ∈ sym.data, ¬(97 ≤ c.toNat ∧ c.toNat ≤ 122))) ∧
    parseTickers "btc-usd, , BNB-usd" = ["BTC-USD", "BNB-USD"] := by
  refine ⟨?_, by decide⟩
  intro s sym hm
  obtain ⟨t, _ht, hne, hsym⟩ := mem_parseTickers s sym hm
  subst hsym
  have hdata : (String.mk ((pyStrip t).map pyToUpper)).data =
      (pyStrip t).map pyToUpper := rfl
  refine ⟨?_, ?_, ?_, ?_⟩
  · intro h0
    apply hne
    have h1 : ((pyStrip t).map pyToUpper) = [] := congrArg String.data h0
    exact List.map_eq_nil_iff.1 h1
  · intro c hc
    rw [hdata, List.head?_map] at hc
    obtain ⟨c0, h0, hup⟩ := Option.map_eq_some'.1 hc
    rw [← hup]
    exact pyIsSpace_pyToUpper c0 (pyStrip_head?_not_space t c0 h0)
  · intro c hc
    rw [hdata, List.getLast?_map] at hc
    obtain ⟨c0, h0, hup⟩ := Option.map_eq_some'.1 hc
    rw [← hup]
    exact pyIsSpace_pyToUpper c0 (pyStrip_getLast?_not_space t c0 h0)
  · intro c hc
    rw [hdata, List.mem_map] at hc
    obtain ⟨c0, _h0, hup⟩ := hc
    rw [← hup]
    exact pyToUpper_not_lower c0

/-- Witness for C8 at the concrete input `"btc-usd, , BNB-usd"` and its
first parsed symbol. -/
theorem claim_C8_witness :
    "BTC-USD" ≠ "" ∧
    (∀ c ∈ "BTC-USD".data, ¬(97 ≤ c.toNat ∧ c.toNat ≤ 122)) :=
  let h := claim_C8.1 "btc-usd, , BNB-usd" "BTC-USD" (by decide)
  ⟨h.1, h.2.2.2⟩

/-- C3: on a non-empty table whose High/Low series align with its dates,
the ATH/ATL block returns the maximum of the High column dated at its
first occurrence and the minimum of the Low column dated at its first
occurrence; High `[10, 15, 15, 8]` over dates `[1, 2, 3, 4]` yields high
value `15` on date `2`. -/
theorem claim_C3 :
    (∀ (dates : List Int) (highs lows : List ℚ),
       highs.length = dates.length → lows.length = dates.length →
       dates ≠ [] →
       ∃ e : Extrema, computeExtrema dates highs lows = some e ∧
         (∃ i : ℕ, highs[i]? = some e.highValue ∧ dates[i]? = some e.highDate ∧
            ∀ j < i, ∀ x : ℚ, highs[j]? = some x → x < e.highValue) ∧
         (∀ x ∈ highs, x ≤ e.highValue) ∧
         (∃ i : ℕ, lows[i]? = some e.lowValue ∧ dates[i]? = some e.lowDate ∧
            ∀ j < i, ∀ x : ℚ, lows[j]? = some x → e.lowValue < x) ∧
         (∀ x ∈ lows, e.lowValue ≤ x)) ∧
    computeExtrema [1, 2, 3, 4] [10, 15, 15, 8] [10, 15, 15, 8] =
      some ⟨15, 2, 8, 4⟩ := by
  refine ⟨?_, by decide⟩
  intro dates highs lows hlh hll hdne
  have hhne : highs ≠ [] := by
    intro h0
    rw [h0] at hlh
    exact hdne (List.length_eq_zero.1 hlh.symm)
  have hlne : lows ≠ [] := by
    intro h0
    rw [h0] at hll
    exact hdne (List.length_eq_zero.1 hll.symm)
  cases hmax : highs.max? with
  | none => exact absurd (List.max?_eq_none_iff.1 hmax) hhne
  | some hv =>
  cases hmin : lows.min? with
  | none => exact absurd (List.min?_eq_none_iff.1 hmin) hlne
  | some lv =>
  obtain ⟨hv_mem, hv_ub⟩ :=
    (List.max?_eq_some_iff le_refl max_choice fun _ _ _ => max_le_iff).1 hmax
  obtain ⟨lv_mem, lv_lb⟩ :=
    (List.min?_eq_some_iff le_refl min_choice fun _ _ _ => le_min_iff).1 hmin
  have hih : highs.indexOf hv < dates.length :=
    hlh ▸ List.indexOf_lt_length.2 hv_mem
  have hil : lows.indexOf lv < dates.length :=
    hll ▸ List.indexOf_lt_length.2 lv_mem
  refine ⟨⟨hv, dates[highs.indexOf hv], lv, dates[lows.indexOf lv]⟩, ?_,
    ⟨highs.indexOf hv, ?_, ?_, ?_⟩, hv_ub,
    ⟨lows.indexOf lv, ?_, ?_, ?_⟩, lv_lb⟩
  · unfold computeExtrema
    rw [hmax, hmin]
    dsimp only
    rw [List.getElem?_eq_getElem hih, List.getElem?_eq_getElem hil]
  · exact getElem?_indexOf_self highs hv hv_mem
  · exact List.getElem?_eq_getElem hih
  · intro j hj x hx
    exact lt_of_le_of_ne (hv_ub x (mem_of_getElem?_eq_some highs j x hx))
      (getElem?_lt_indexOf_ne highs hv j hj x hx)
  · exact getElem?_indexOf_self lows lv lv_mem
  · exact List.getElem?_eq_getElem hil
  · intro j hj x hx
    exact lt_of_le_of_ne (lv_lb x (mem_of_getElem?_eq_some lows j x hx))
      fun he => getElem?_lt_indexOf_ne lows lv j hj x hx he.symm

/-- Witness for C3 at a concrete two-row table. -/
theorem claim_C3_witness :
    ∃ e : Extrema, computeExtrema [7, 8] [10, 20] [3, 1] = some e ∧
      (∃ i : ℕ, ([10, 20] : List ℚ)[i]? = some e.highValue ∧
         ([7, 8] : List Int)[i]? = some e.highDate ∧
         ∀ j < i, ∀ x : ℚ, ([10, 20] : List ℚ)[j]? = some x → x < e.highValue) ∧
      (∀ x ∈ ([10, 20] : List ℚ), x ≤ e.highValue) ∧
      (∃ i : ℕ, ([3, 1] : List ℚ)[i]? = some e.lowValue ∧
         ([7, 8] : List Int)[i]? = some e.lowDate ∧
         ∀ j < i, ∀ x : ℚ, ([3, 1] : List ℚ)[j]? = some x → e.lowValue < x) ∧
      (∀ x ∈ ([3, 1] : List ℚ), e.lowValue ≤ x) :=
  claim_C3.1 [7, 8] [10, 20] [3, 1] (by decide) (by decide) (by decide)

/-- C6: when the prepared table lacks a `Date` column, or any of the
Open/High/Low/Close references resolves to no column, the display loop
still shows the table but emits a warning and skips the extrema metrics
and the chart (and everything after them). -/
theorem claim_C6 :
    ∀ (t : String) (df : RawDF),
      ("Date" ∉ (prepare_df_for_plot df t).1.columns ∨
       pick_col (prepare_df_for_plot df t).1.columns "Open" t = none ∨
       pick_col (prepare_df_for_plot df t).1.columns "High" t = none ∨
       pick_col (prepare_df_for_plot df t).1.columns "Low" t = none ∨
       pick_col (prepare_df_for_plot df t).1.columns "Close" t = none) →
      DisplayStep.table (prepare_df_for_plot df t).1.columns ∈
        displaySymbol t df ∧
      (displaySymbol t df =
         [.table (prepare_df_for_plot df t).1.columns, .warnNoDate t] ∨
       displaySymbol t df =
         [.table (prepare_df_for_plot df t).1.columns,
          .warnIncompleteOhlc t]) := by
  intro t df h
  unfold displaySymbol
  dsimp only
  by_cases hdate : "Date" ∈ (prepare_df_for_plot df t).1.columns
  · have hohlc :
        (pick_col (prepare_df_for_plot df t).1.columns "Open" t).isNone = true ∨
        (pick_col (prepare_df_for_plot df t).1.columns "High" t).isNone = true ∨
        (pick_col (prepare_df_for_plot df t).1.columns "Low" t).isNone = true ∨
        (pick_col (prepare_df_for_plot df t).1.columns "Close" t).isNone
          = true := by
      rcases h with h | h | h | h | h
      · exact absurd hdate h
      · exact Or.inl (Option.isNone_iff_eq_none.2 h)
      · exact Or.inr (Or.inl (Option.isNone_iff_eq_none.2 h))
      · exact Or.inr (Or.inr (Or.inl (Option.isNone_iff_eq_none.2 h)))
      · exact Or.inr (Or.inr (Or.inr (Option.isNone_iff_eq_none.2 h)))
    rw [if_neg (by simpa using hdate), if_pos (by
      rcases hohlc with h' | h' | h' | h' <;> simp [h'])]
    exact ⟨List.mem_cons_self _ _, Or.inr rfl⟩
  · rw [if_pos hdate]
    exact ⟨List.mem_cons_self _ _, Or.inl rfl⟩

/-- A concrete fetched table with full OHLC data over two dates. -/
def sampleRaw : RawDF :=
  { multi := false
    indexName := some "Date"
    cols := [.str "Open", .str "High", .str "Low", .str "Close"]
    dates := [1, 2]
    vals := fun _ => [1, 2] }

/-- A concrete fetched table whose columns miss Open/High/Low. -/
def closeOnlyRaw : RawDF :=
  { multi := false
    indexName := some "Date"
    cols := [.str "Close"]
    dates := [5]
    vals := fun _ => [1] }

/-- Witness for C6: a table holding only a `Close` column is shown as a
table but gets the incomplete-OHLC warning instead of metrics and chart. -/
theorem claim_C6_witness :
    DisplayStep.table (prepare_df_for_plot closeOnlyRaw "BTC-USD").1.columns ∈
      displaySymbol "BTC-USD" closeOnlyRaw ∧
    (displaySymbol "BTC-USD" closeOnlyRaw =
       [.table (prepare_df_for_plot closeOnlyRaw "BTC-USD").1.columns,
        .warnNoDate "BTC-USD"] ∨
     displaySymbol "BTC-USD" closeOnlyRaw =
       [.table (prepare_df_for_plot closeOnlyRaw "BTC-USD").1.columns,
        .warnIncompleteOhlc "BTC-USD"]) :=
  claim_C6 "BTC-USD" closeOnlyRaw (by decide)

/-- C5: per-symbol fetch failures are recorded per occurrence (an error
event for an exception, a no-data warning for an empty or absent result)
and never stop the loop: any symbol whose own fetch returned a non-empty
table is present in `data` and gets its full display block, and a
symbol's entry depends solely on its own fetch result. -/
theorem claim_C5 :
    (∀ (f : String → FetchResult) (ts : List String) (t : String),
       t ∈ ts → ∀ m : String, f t = .err m →
         BatchEvent.errorFetch t m ∈ batchEvents f ts) ∧
    (∀ (f : String → FetchResult) (ts : List String) (t : String),
       t ∈ ts → f t = .noData →
         BatchEvent.warnNoData t ∈ batchEvents f ts) ∧
    (∀ (f : String → FetchResult) (ts : List String) (t : String)
       (df : RawDF), t ∈ ts → f t = .ok df → df.isEmpty = false →
         (buildData f ts).lookup t = some df ∧
         (t, displaySymbol t df) ∈ runBatch f ts) ∧
    (∀ (f f' : String → FetchResult) (ts : List String) (t : String),
       f t = f' t →
         (buildData f ts).lookup t = (buildData f' ts).lookup t) := by
  refine ⟨?_, ?_, ?_, ?_⟩
  · intro f ts t ht m hf
    unfold batchEvents
    rw [List.mem_map]
    exact ⟨t, ht, by rw [hf]⟩
  · intro f ts t ht hf
    unfold batchEvents
    rw [List.mem_map]
    exact ⟨t, ht, by rw [hf]⟩
  · intro f ts t df ht hf hemp
    have hload : loadedDf (f t) = some df := by
      rw [hf]
      unfold loadedDf
      dsimp only
      rw [hemp]
      rfl
    have hlook : (buildData f ts).lookup t = some df := by
      rw [lookup_buildData, hload]
      exact if_pos ht
    refine ⟨hlook, ?_⟩
    unfold runBatch
    rw [List.mem_map]
    exact ⟨(t, df), lookup_some_mem t df (buildData f ts) hlook, rfl⟩
  · intro f f' ts t h
    rw [lookup_buildData, lookup_buildData, h]

/-- Witness for C5: with a fetch oracle that raises for `"AAA"` and
succeeds for `"BBB"`, the failure is recorded and `"BBB"` is still fully
processed. -/
theorem claim_C5_witness :
    BatchEvent.errorFetch "AAA" "boom" ∈
      batchEvents
        (fun t => if t = "AAA" then .err "boom" else .ok sampleRaw)
        ["AAA", "BBB"] ∧
    (buildData (fun t => if t = "AAA" then .err "boom" else .ok sampleRaw)
        ["AAA", "BBB"]).lookup "BBB" = some sampleRaw ∧
    ("BBB", displaySymbol "BBB" sampleRaw) ∈
      runBatch (fun t => if t = "AAA" then .err "boom" else .ok sampleRaw)
        ["AAA", "BBB"] := by
  have h1 := claim_C5.1
    (fun t => if t = "AAA" then .err "boom" else .ok sampleRaw)
    ["AAA", "BBB"] "AAA" (by decide) "boom" (by simp)
  have h2 := claim_C5.2.2.1
    (fun t => if t = "AAA" then .err "boom" else .ok sampleRaw)
    ["AAA", "BBB"] "BBB" sampleRaw (by decide) (by simp) (by decide)
  exact ⟨h1, h2.1, h2.2⟩

/-- A fetch oracle that succeeds with `sampleRaw` for every symbol. -/
def constFetch : String → FetchResult := fun _ => .ok sampleRaw

/-- C4 counterexample: entering `"BTC-USD, BTC-USD"` parses to two
occurrences and both are fetched, yet the display loop runs over the
symbol-keyed `data` dict and produces one output block, not two. -/
theorem claim_C4_counterexample :
    parseTickers "BTC-USD, BTC-USD" = ["BTC-USD", "BTC-USD"] ∧
    (batchEvents constFetch (parseTickers "BTC-USD, BTC-USD")).length = 2 ∧
    (runBatch constFetch (parseTickers "BTC-USD, BTC-USD")).length = 1 ∧
    1 ≠ 2 := by
  refine ⟨by decide, ?_, ?_, by decide⟩
  · rfl
  · rfl

/-- C4 (amended): duplicates survive parsing and each occurrence is
independently fetched (one download-loop record per occurrence), but the
results live in a dict keyed by symbol, so the per-symbol display
output appears exactly once per distinct successfully fetched symbol. -/
theorem claim_C4_amended :
    parseTickers "BTC-USD, BTC-USD" = ["BTC-USD", "BTC-USD"] ∧
    (∀ (f : String → FetchResult) (ts : List String),
       (batchEvents f ts).length = ts.length) ∧
    (∀ (f : String → FetchResult) (ts : List String),
       ((buildData f ts).map Prod.fst).Nodup) ∧
    (∀ (f : String → FetchResult) (ts : List String) (t : String),
       t ∈ (buildData f ts).map Prod.fst ↔
         (t ∈ ts ∧ loadedDf (f t) ≠ none)) ∧
    (∀ (f : String → FetchResult) (ts : List String),
       (runBatch f ts).length = (buildData f ts).length) := by
  refine ⟨by decide, ?_, ?_, ?_, ?_⟩
  · intro f ts
    exact List.length_map ts _
  · intro f ts
    exact nodup_keys_buildDataAux f ts [] List.nodup_nil
  · intro f ts t
    rw [mem_keys_iff_lookup, lookup_buildData]
    cases hl : loadedDf (f t) with
    | none => simp
    | some df =>
      by_cases hm : t ∈ ts
      · simp [hm]
      · simp [hm]
  · intro f ts
    exact List.length_map _ _

end FutureInsight
